import Mathlib

/-!
# Verification of the FiraMath build script (`src/scripts/build.py`)

Shallow embedding of the glyph/component data model and the algorithms of the
build script: smart-component interpolation, component decomposition, per-style
metric interpolation, and the MATH-table part encoding.

Modelling conventions:
* Coordinates, axis values and interpolation weights are modelled as `ℚ`
  (the Python code computes with floats; all claims are about the real-number
  formulas `round(...)`, which `ℚ` realises exactly on the inputs considered).
* Python's `round` (banker's rounding, ties to even) is modelled by `pyRound`.
* Python exceptions (`StopIteration` from a failing `next(...)`, `KeyError`,
  `ValueError`, `ZeroDivisionError`, dangling references) are modelled by
  `Option`: `none` means the build aborts with an uncaught exception.
* `glyphsLib` container classes (`GSNode`, `GSPath`, `GSComponent`, `GSLayer`,
  `GSGlyph`) are modelled structurally with exactly the fields the script
  reads or writes.
-/

set_option autoImplicit false

namespace FiraMath

/-- Python 3 `round`: nearest integer, ties go to the even integer. -/
def pyRound (q : ℚ) : ℤ :=
  let f := q.floor
  let r := q - (f : ℚ)
  if r < 1/2 then f
  else if 1/2 < r then f + 1
  else if f % 2 = 0 then f else f + 1

/-- A `GSNode`: position, node type and smoothness flag. -/
structure GSNode where
  x : ℚ
  y : ℚ
  nodeType : String
  smooth : Bool
deriving DecidableEq

/-- An affine transform `(xx, xy, yx, yy, dx, dy)` as used by
`GSComponent.transform` / fontTools `Transform`. -/
structure Transform where
  xx : ℚ
  xy : ℚ
  yx : ℚ
  yy : ℚ
  dx : ℚ
  dy : ℚ
deriving DecidableEq

def Transform.id : Transform := ⟨1, 0, 0, 1, 0, 0⟩

/-- fontTools `transformPoint` applied to a node's position. -/
def applyTransformNode (t : Transform) (n : GSNode) : GSNode :=
  { n with
    x := t.xx * n.x + t.yx * n.y + t.dx
    y := t.xy * n.x + t.yy * n.y + t.dy }

/-- A `GSPath`: its nodes plus the attributes (`closed`) that `copy.copy`
preserves. -/
structure GSPath where
  nodes : List GSNode
  closed : Bool
deriving DecidableEq

/-- `GSPath.applyTransform`: transform every node position. -/
def GSPath.applyTransform (t : Transform) (p : GSPath) : GSPath :=
  { p with nodes := p.nodes.map (applyTransformNode t) }

/-- A `GSComponent`: reference to another glyph by name, the smart-component
axis values (`smartComponentValues`, a dict modelled as an association list)
and the placement transform. -/
structure GSComponent where
  componentName : String
  smartComponentValues : List (String × ℚ)
  transform : Transform
deriving DecidableEq

/-- A shape of a layer (`layer._shapes`): either a path or a component. -/
inductive GSShape where
  | path : GSPath → GSShape
  | comp : GSComponent → GSShape
deriving DecidableEq

/-- A `GSSmartComponentAxis`: name and `[bottomValue, topValue]` range. -/
structure SmartAxis where
  name : String
  bottomValue : ℚ
  topValue : ℚ
deriving DecidableEq

/-- A `GSLayer`: ids, the smart-part selection dict, and the shape list. -/
structure GSLayer where
  layerId : String
  associatedMasterId : String
  partSelection : List (String × Nat)
  shapes : List GSShape
deriving DecidableEq

/-- A `GSGlyph`: name, smart axes and layers. -/
structure GSGlyph where
  name : String
  smartComponentAxes : List SmartAxis
  layers : List GSLayer
deriving DecidableEq

/-- `layer.paths`: the path shapes of a layer, in order. -/
def GSLayer.layerPaths (l : GSLayer) : List GSPath :=
  l.shapes.filterMap fun s => match s with
    | .path p => some p
    | .comp _ => none

/-- `layer.components`: the component shapes of a layer, in order. -/
def GSLayer.components (l : GSLayer) : List GSComponent :=
  l.shapes.filterMap fun s => match s with
    | .path _ => none
    | .comp c => some c

/-- `comp.component` / `self.font.glyphs[name]`: glyph lookup by name;
a dangling reference is a crash (`none`). -/
def lookupGlyph (font : List GSGlyph) (name : String) : Option GSGlyph :=
  font.find? fun g => g.name == name

/-- `Font._is_smart_glyph`: `glyph.smartComponentAxes != []`. -/
def isSmartGlyph (g : GSGlyph) : Bool :=
  !g.smartComponentAxes.isEmpty

/-- `Font._rescale`: `(x - bottom) / (top - bottom)`; `bottom = top` raises
`ZeroDivisionError` in Python, modelled as `none`. -/
def rescale (x bottom top : ℚ) : Option ℚ :=
  if top - bottom = 0 then none else some ((x - bottom) / (top - bottom))

/-- `Font._interpolate_node`: round the affine blend of the two positions
component-wise; `type` and `smooth` are taken from `node_0`. -/
def interpolateNode (node_0 node_1 : GSNode) (value : ℚ) : GSNode :=
  { x := (pyRound (node_0.x * (1 - value) + node_1.x * value) : ℤ)
    y := (pyRound (node_0.y * (1 - value) + node_1.y * value) : ℤ)
    nodeType := node_0.nodeType
    smooth := node_0.smooth }

/-- `Font._interpolate_path`: `copy.copy(path_0)` with nodes replaced by the
pairwise interpolation of `zip(path_0.nodes, path_1.nodes)` (note: `zip`
silently truncates to the shorter node list). -/
def interpolatePath (path_0 path_1 : GSPath) (value : ℚ) : GSPath :=
  { path_0 with
    nodes := (path_0.nodes.zip path_1.nodes).map fun n => interpolateNode n.1 n.2 value }

/-- The `_is_part_n` search inside `Font._smart_component_to_paths`: find the
first layer with the given associated master id whose part-selection value for
the discriminator key (the supplied axis key, or the layer's first
part-selection key when no axis value was supplied) equals `n`.  A failing
`next(...)` / missing dict key is a crash (`none`). -/
def findPartLayer (masterId : String) (key? : Option String) (n : Nat) :
    List GSLayer → Option GSLayer
  | [] => none
  | layer :: rest =>
    if layer.associatedMasterId == masterId then
      match key? with
      | none =>
        match layer.partSelection.head? with
        | none => none
        | some kv =>
          if kv.2 == n then some layer else findPartLayer masterId key? n rest
      | some k =>
        match layer.partSelection.find? fun kv => kv.1 == k with
        | none => none
        | some kv =>
          if kv.2 == n then some layer else findPartLayer masterId key? n rest
    else findPartLayer masterId key? n rest

/-- The interpolation-value computation of `Font._smart_component_to_paths`:
no axis value supplied means `interpolation_value = 0` with the discriminator
key taken from each layer's own part selection (`key? = none`); exactly one
supplied value is rescaled over the matching axis's range; more than one value
raises `ValueError` (`none`). -/
def smartInterpolationSetup (ref_glyph : GSGlyph) (values : List (String × ℚ)) :
    Option (ℚ × Option String) :=
  match values with
  | [] => some (0, none)
  | [kv] =>
    match ref_glyph.smartComponentAxes.find? fun a => a.name == kv.1 with
    | none => none
    | some axis =>
      match rescale kv.2 axis.bottomValue axis.topValue with
      | none => none
      | some t => some (t, some kv.1)
  | _ :: _ :: _ => none

/-- `Font._smart_component_to_paths`: locate the two part-extreme layers for
the component's master, pairwise-interpolate their paths (`zip` truncates),
then apply the component's transform. -/
def smartComponentToPaths (font : List GSGlyph) (associatedMasterId : String)
    (comp : GSComponent) : Option (List GSPath) :=
  match lookupGlyph font comp.componentName with
  | none => none
  | some ref_glyph =>
    match smartInterpolationSetup ref_glyph comp.smartComponentValues with
    | none => none
    | some tk =>
      match findPartLayer associatedMasterId tk.2 1 ref_glyph.layers with
      | none => none
      | some layer_0 =>
        match findPartLayer associatedMasterId tk.2 2 ref_glyph.layers with
        | none => none
        | some layer_1 =>
          some (((layer_0.layerPaths).zip (layer_1.layerPaths)).map fun pp =>
            (interpolatePath pp.1 pp.2 tk.1).applyTransform comp.transform)

/-- `Font._component_to_paths`: fetch the referenced glyph's layer whose
`layerId` equals the parent's associated master id, copy its paths' nodes and
apply the component transform. -/
def componentToPaths (font : List GSGlyph) (associatedMasterId : String)
    (comp : GSComponent) : Option (List GSPath) :=
  match lookupGlyph font comp.componentName with
  | none => none
  | some ref_glyph =>
    match ref_glyph.layers.find? fun l => l.layerId == associatedMasterId with
    | none => none
    | some layer =>
      some (layer.layerPaths.map fun p => p.applyTransform comp.transform)

/-- Rounding a node's position component-wise (what interpolation at an
extreme of the blend parameter produces). -/
def roundNode (n : GSNode) : GSNode :=
  { n with x := (pyRound n.x : ℤ), y := (pyRound n.y : ℤ) }

/-! ## The component decomposer (`Font._decompose_smart_comp`) -/

/-- Map an `Option`-valued function over a list; any failure aborts the whole
loop (a Python exception propagates out of the `for` loop). -/
def mapOption {α β : Type} (f : α → Option β) : List α → Option (List β)
  | [] => some []
  | a :: l =>
    match f a, mapOption f l with
    | some b, some bs => some (b :: bs)
    | _, _ => none

/-- Pass-1 component expansion (first loop of `Font._decompose_smart_comp`):
a component referencing a smart glyph is interpolated via
`_smart_component_to_paths`, any other component is copied via
`_component_to_paths`. -/
def expandComp1 (font : List GSGlyph) (associatedMasterId : String)
    (comp : GSComponent) : Option (List GSPath) :=
  match lookupGlyph font comp.componentName with
  | none => none
  | some ref =>
    if isSmartGlyph ref then smartComponentToPaths font associatedMasterId comp
    else componentToPaths font associatedMasterId comp

def isPathShape : GSShape → Bool
  | .path _ => true
  | .comp _ => false

/-- Pass-1 processing of one layer: expand every component, append the
resulting paths to the layer's shapes (`layer.paths.extend`), then remove all
the processed components (`layer._shapes = [s for s in layer._shapes if s not
in to_be_removed]`). -/
def decomposeLayerPass1 (font : List GSGlyph) (layer : GSLayer) : Option GSLayer :=
  match mapOption (expandComp1 font layer.associatedMasterId) layer.components with
  | none => none
  | some pss =>
    some { layer with
      shapes := layer.shapes.filter isPathShape ++ (pss.flatten.map GSShape.path) }

/-- Pass-2 processing of one layer (second loop of
`Font._decompose_smart_comp`): only components whose `smartComponentValues`
dict is non-empty are expanded (always via `_smart_component_to_paths`) and
removed; every other component is left in place. -/
def decomposeLayerPass2 (font : List GSGlyph) (layer : GSLayer) : Option GSLayer :=
  match mapOption (smartComponentToPaths font layer.associatedMasterId)
      (layer.components.filter fun c => !c.smartComponentValues.isEmpty) with
  | none => none
  | some pss =>
    some { layer with
      shapes := layer.shapes.filter (fun s => match s with
        | .path _ => true
        | .comp c => c.smartComponentValues.isEmpty) ++ (pss.flatten.map GSShape.path) }

/-- Process every layer of one glyph.  The layers are expanded against the
font state at the start of that glyph; this coincides with the source's
in-place mutation unless a glyph's component references the glyph itself. -/
def processGlyph (passFn : List GSGlyph → GSLayer → Option GSLayer)
    (font : List GSGlyph) (g : GSGlyph) : Option GSGlyph :=
  match mapOption (passFn font) g.layers with
  | none => none
  | some ls => some { g with layers := ls }

/-- One pass of `Font._decompose_smart_comp`: visit the glyphs in order,
process each glyph satisfying `p`, and replace it in the font before the next
glyph is visited (the source mutates `self.font.glyphs` in place, so later
glyphs' expansions see earlier glyphs' already-flattened outlines). -/
def runPassFrom (passFn : List GSGlyph → GSLayer → Option GSLayer)
    (p : GSGlyph → Bool) : List Nat → List GSGlyph → Option (List GSGlyph)
  | [], font => some font
  | gi :: rest, font =>
    match font[gi]? with
    | none => none
    | some g =>
      if p g then
        match processGlyph passFn font g with
        | none => none
        | some g' => runPassFrom passFn p rest (font.set gi g')
      else runPassFrom passFn p rest font

def runPass (passFn : List GSGlyph → GSLayer → Option GSLayer)
    (p : GSGlyph → Bool) (font : List GSGlyph) : Option (List GSGlyph) :=
  runPassFrom passFn p (List.range font.length) font

/-- `Font._decompose_smart_comp`: pass 1 over the smart glyphs (expanding all
their components), then pass 2 over the remaining glyphs (expanding only the
components carrying smart values). -/
def decomposeSmartComp (font : List GSGlyph) : Option (List GSGlyph) :=
  match runPass decomposeLayerPass1 isSmartGlyph font with
  | none => none
  | some f1 => runPass decomposeLayerPass2 (fun g => !isSmartGlyph g) f1

/-! ## Per-style metric interpolation (`Font._parse_math_table` and helpers) -/

/-- The `_generate` closure of `Font._parse_math_table`:
`round(sum(values[i] * v for i, v in interpolation))`.  An out-of-range
master index raises `IndexError` in Python; the theorems below only invoke
`generate` with in-range indices, where `getD` agrees with Python indexing. -/
def generate (interpolation : List (Nat × ℚ)) (values : List ℚ) : ℤ :=
  pyRound ((interpolation.map fun iv => values.getD iv.1 0 * iv.2).sum)

/-- `Font._advances`: one entry per master layer, `abs(round(dim))` where
`dim` is the layer bounding-box width (direction `H`) or height (direction
`V`); the bounding boxes themselves are computed by glyphsLib (external), so
the per-master dimension values are the input here.  With `plus_1` every
entry additionally gets `+ 1`. -/
def advances (dims : List ℚ) (plus_1 : Bool) : List ℤ :=
  let result := dims.map fun d => |pyRound d|
  if plus_1 then result.map fun i => i + 1 else result

/-- The per-master advance list stored for a variant glyph in
`Font._parse_master_math_table` (`self._advances(var, dir, plus_1=True)`),
as rational values ready for interpolation. -/
def masterVariantAdvances (dims : List ℚ) : List ℚ :=
  (advances dims true).map fun i : ℤ => (i : ℚ)

/-- The advance encoded in a style's variant record: `_generate` applied to
the per-master (already `+ 1`-padded) advance list. -/
def variantAdvance (interpolation : List (Nat × ℚ)) (dims : List ℚ) : ℤ :=
  generate interpolation (masterVariantAdvances dims)

/-- The completion step of `Font._parse_master_math_table` for one glyph's
per-master value list: when its length differs from the master count, emit a
warning (the `Bool` component) and replace it by `[values[0]] * masters_num`;
`values[0]` on an empty list raises `IndexError` (`none`). -/
def fillGlyphInfoValues (mastersNum : Nat) (values : List ℚ) :
    Option (List ℚ × Bool) :=
  if values.length ≠ mastersNum then
    match values with
    | [] => none
    | v :: _ => some (List.replicate mastersNum v, true)
  else some (values, false)

/-- The `_is_removed_glyph` closure: `glyph in remove_glyphs if remove_glyphs
else False`, where `remove_glyphs` is the style's `Remove Glyphs` custom
parameter (absent ⇒ `none`). -/
def isRemovedGlyph (removeGlyphs : Option (List String)) (glyph : String) : Bool :=
  match removeGlyphs with
  | none => false
  | some gs => gs.contains glyph

/-- One glyph-info map (`ItalicCorrection` or `TopAccent`) of one style:
glyphs flagged by `Remove Glyphs` are filtered out, every kept glyph's
per-master values are interpolated with `_generate`. -/
def styleGlyphInfoMap (interpolation : List (Nat × ℚ))
    (removeGlyphs : Option (List String))
    (master : List (String × List ℚ)) : List (String × ℤ) :=
  (master.filter fun gv => !isRemovedGlyph removeGlyphs gv.1).map
    fun gv => (gv.1, generate interpolation gv.2)

/-- The `_variant` closure: interpolate every variant glyph's per-master
advance list; no glyph is filtered out. -/
def styleVariantMap (interpolation : List (Nat × ℚ))
    (master : List (String × List (String × List ℚ))) :
    List (String × List (String × ℤ)) :=
  master.map fun gv => (gv.1, gv.2.map fun sv => (sv.1, generate interpolation sv.2))

/-- One assembly part as recorded per master in
`Font._parse_master_math_table`: name and extender flag from the TOML, the
two connector lists from per-master user data, the advance list from
`_advances` (no `+ 1`). -/
structure MasterPart where
  name : String
  isExtender : Bool
  startConnector : List ℚ
  endConnector : List ℚ
  fullAdvance : List ℚ
deriving DecidableEq

/-- One glyph's assembly data as recorded per master: the raw
`italicsCorrection` scalar from the TOML and the part list. -/
structure MasterComponent where
  italicsCorrection : ℚ
  parts : List MasterPart
deriving DecidableEq

/-- One assembly part of one style's table model. -/
structure StylePart where
  name : String
  isExtender : Bool
  startConnector : ℤ
  endConnector : ℤ
  fullAdvance : ℤ
deriving DecidableEq

/-- One glyph's assembly data in one style's table model. -/
structure StyleComponent where
  italicsCorrection : ℚ
  parts : List StylePart
deriving DecidableEq

/-- The `_componet` closure of `Font._parse_math_table`: the
`italicsCorrection` value is copied verbatim from the master data (the source
carries a `TODO: need to be interpolated` comment there), while each part's
`startConnector`, `endConnector` and `fullAdvance` are interpolated with
`_generate`. -/
def styleComponent (interpolation : List (Nat × ℚ)) (c : MasterComponent) :
    StyleComponent :=
  { italicsCorrection := c.italicsCorrection
    parts := c.parts.map fun part =>
      { name := part.name
        isExtender := part.isExtender
        startConnector := generate interpolation part.startConnector
        endConnector := generate interpolation part.endConnector
        fullAdvance := generate interpolation part.fullAdvance } }

/-- The glyph → assembly map of one style (`_componet(name)`); no glyph is
filtered out. -/
def styleComponentMap (interpolation : List (Nat × ℚ))
    (master : List (String × MasterComponent)) : List (String × StyleComponent) :=
  master.map fun gc => (gc.1, styleComponent interpolation gc.2)

/-- The master-level data consumed by `Font._parse_math_table` (the result of
`Font._parse_master_math_table`). -/
structure MasterMathData where
  constants : List (String × List ℚ × Bool)
  italicCorrection : List (String × List ℚ)
  topAccent : List (String × List ℚ)
  extendedShapes : List String
  minConnectorOverlap : List ℚ
  horizontalVariants : List (String × List (String × List ℚ))
  verticalVariants : List (String × List (String × List ℚ))
  horizontalComponents : List (String × MasterComponent)
  verticalComponents : List (String × MasterComponent)
deriving DecidableEq

/-- The in-memory `MathTable` model built for one style. -/
structure MathTableModel where
  constants : List (String × ℤ × Bool)
  italicCorrection : List (String × ℤ)
  topAccent : List (String × ℤ)
  extendedShapes : List String
  minConnectorOverlap : ℤ
  horizontalVariants : List (String × List (String × ℤ))
  verticalVariants : List (String × List (String × ℤ))
  horizontalComponents : List (String × StyleComponent)
  verticalComponents : List (String × StyleComponent)
deriving DecidableEq

/-- The body of the per-style loop of `Font._parse_math_table`: build one
style's `MathTable` model from the master data, the style's interpolation
vector and its `Remove Glyphs` custom parameter. -/
def parseMathTableStyle (interpolation : List (Nat × ℚ))
    (removeGlyphs : Option (List String)) (master : MasterMathData) :
    MathTableModel :=
  { constants := master.constants.map fun nd =>
      (nd.1, generate interpolation nd.2.1, nd.2.2)
    italicCorrection := styleGlyphInfoMap interpolation removeGlyphs master.italicCorrection
    topAccent := styleGlyphInfoMap interpolation removeGlyphs master.topAccent
    extendedShapes := master.extendedShapes
    minConnectorOverlap := generate interpolation master.minConnectorOverlap
    horizontalVariants := styleVariantMap interpolation master.horizontalVariants
    verticalVariants := styleVariantMap interpolation master.verticalVariants
    horizontalComponents := styleComponentMap interpolation master.horizontalComponents
    verticalComponents := styleComponentMap interpolation master.verticalComponents }

/-! ## MATH-table binary encoding (`MathTable._glyph_assembly`) -/

/-- An OpenType `MathValueRecord` (`MathTable._math_value`): value plus a
null device-table pointer. -/
structure MathValueRecord where
  deviceTable : Option Unit
  value : ℚ
deriving DecidableEq

def mathValue (value : ℚ) : MathValueRecord :=
  { deviceTable := none, value := value }

/-- An OpenType `GlyphPartRecord` as filled by `MathTable._glyph_assembly`. -/
structure GlyphPartRecord where
  glyph : String
  startConnectorLength : ℤ
  endConnectorLength : ℤ
  fullAdvance : ℤ
  partFlags : ℕ
deriving DecidableEq

/-- The `PartFlags` bit pattern: `0x0001 if part['isExtender'] else 0xFFFE`. -/
def partFlagsOf (isExtender : Bool) : ℕ :=
  if isExtender then 0x0001 else 0xFFFE

/-- An OpenType `GlyphAssembly` record. -/
structure GlyphAssembly where
  italicsCorrection : MathValueRecord
  partCount : ℕ
  partRecords : List GlyphPartRecord
deriving DecidableEq

/-- `MathTable._glyph_assembly`: encode one style component into a
`GlyphAssembly`. -/
def glyphAssembly (component : StyleComponent) : GlyphAssembly :=
  { italicsCorrection := mathValue component.italicsCorrection
    partCount := component.parts.length
    partRecords := component.parts.map fun part =>
      { glyph := part.name
        startConnectorLength := part.startConnector
        endConnectorLength := part.endConnector
        fullAdvance := part.fullAdvance
        partFlags := partFlagsOf part.isExtender } }

/-! ## Concrete inputs used by the counterexamples and witnesses -/

/-- A plain outline path. -/
def exPathA : GSPath :=
  ⟨[⟨0, 0, "line", false⟩, ⟨100, 0, "line", false⟩, ⟨100, 700, "line", false⟩], true⟩

/-- A non-smart glyph consisting of one outline path. -/
def exGlyphA : GSGlyph := ⟨"A", [], [⟨"m1", "m1", [], [.path exPathA]⟩]⟩

/-- An ordinary (non-smart) component reference to `A`. -/
def exCompBA : GSComponent := ⟨"A", [], Transform.id⟩

/-- A non-smart glyph consisting of one ordinary component reference. -/
def exGlyphB : GSGlyph := ⟨"B", [], [⟨"m1", "m1", [], [.comp exCompBA]⟩]⟩

/-- A two-glyph font: `B` references `A` through an ordinary component. -/
def exFontC1 : List GSGlyph := [exGlyphA, exGlyphB]

/-- Part-1 extreme layer path with two nodes. -/
def exStemPath1 : GSPath := ⟨[⟨1, 2, "line", false⟩, ⟨3, 4, "line", false⟩], true⟩

/-- Part-2 extreme layer path with a single node: mismatched node count. -/
def exStemPath2 : GSPath := ⟨[⟨10, 20, "line", false⟩], true⟩

/-- The part-1 extreme layer of the smart glyph `stem`. -/
def exStemLayer1 : GSLayer := ⟨"L0", "m1", [("Width", 1)], [.path exStemPath1]⟩

/-- The part-2 extreme layer of the smart glyph `stem`. -/
def exStemLayer2 : GSLayer := ⟨"L1", "m1", [("Width", 2)], [.path exStemPath2]⟩

/-- A smart glyph whose two part-extreme layers have mismatched node counts. -/
def exStemGlyph : GSGlyph :=
  ⟨"stem", [⟨"Width", 0, 100⟩], [exStemLayer1, exStemLayer2]⟩

/-- A smart component reference to `stem` supplying no axis value. -/
def exStemComp : GSComponent := ⟨"stem", [], Transform.id⟩

/-- A one-glyph font holding the mismatched smart glyph. -/
def exFontC2 : List GSGlyph := [exStemGlyph]

/-- A two-node path (same node count as `exStemPath1`). -/
def exPathD : GSPath := ⟨[⟨5, 6, "curve", true⟩, ⟨7, 8, "line", false⟩], false⟩

/-- A small master-level math data set; glyph `x` occurs in every category. -/
def exMasterData : MasterMathData :=
  { constants := [("AxisHeight", [100, 200], true)]
    italicCorrection := [("x", [10, 20]), ("y", [30, 40])]
    topAccent := [("x", [1, 2]), ("z", [3, 4])]
    extendedShapes := ["x", "z"]
    minConnectorOverlap := [20, 20]
    horizontalVariants := [("x", [("x.size1", [5, 6])])]
    verticalVariants := [("x", [("x.size1", [7, 8])])]
    horizontalComponents := [("x", ⟨15, [⟨"x.part", true, [1, 2], [3, 4], [5, 6]⟩]⟩)]
    verticalComponents := [("x", ⟨25, []⟩)] }

/-! ## Helper lemmas about `pyRound` -/

theorem ratFloor_eq_intFloor (q : ℚ) : q.floor = ⌊q⌋ := rfl

theorem pyRound_ite (q : ℚ) : pyRound q =
    if q - ⌊q⌋ < 1/2 then ⌊q⌋
    else if 1/2 < q - ⌊q⌋ then ⌊q⌋ + 1
    else if ⌊q⌋ % 2 = 0 then ⌊q⌋ else ⌊q⌋ + 1 := rfl

theorem pyRound_of_lt (q : ℚ) (f : ℤ) (h0 : (f : ℚ) ≤ q) (h1 : q < f + 1/2) :
    pyRound q = f := by
  have hf : ⌊q⌋ = f := by
    rw [Int.floor_eq_iff]
    exact ⟨h0, by linarith⟩
  rw [pyRound_ite, hf, if_pos (by linarith)]

theorem pyRound_of_gt (q : ℚ) (f : ℤ) (h0 : (f : ℚ) + 1/2 < q) (h1 : q < f + 1) :
    pyRound q = f + 1 := by
  have hf : ⌊q⌋ = f := by
    rw [Int.floor_eq_iff]
    exact ⟨by linarith, h1⟩
  rw [pyRound_ite, hf, if_neg (by linarith), if_pos (by linarith)]

theorem pyRound_tie_even (q : ℚ) (f : ℤ) (heq : q = f + 1/2) (hev : f % 2 = 0) :
    pyRound q = f := by
  have hf : ⌊q⌋ = f := by
    rw [Int.floor_eq_iff]
    constructor
    · rw [heq]; norm_num
    · rw [heq]; norm_num
  rw [pyRound_ite, hf, if_neg (by rw [heq]; norm_num),
    if_neg (by rw [heq]; norm_num), if_pos hev]

theorem pyRound_tie_odd (q : ℚ) (f : ℤ) (heq : q = f + 1/2) (hodd : f % 2 ≠ 0) :
    pyRound q = f + 1 := by
  have hf : ⌊q⌋ = f := by
    rw [Int.floor_eq_iff]
    constructor
    · rw [heq]; norm_num
    · rw [heq]; norm_num
  rw [pyRound_ite, hf, if_neg (by rw [heq]; norm_num),
    if_neg (by rw [heq]; norm_num), if_neg hodd]

theorem pyRound_intCast (n : ℤ) : pyRound (n : ℚ) = n := by
  apply pyRound_of_lt <;> norm_num

/-! ## C5: the node interpolation formula -/

/-- Claim C5 (confirmed): for every pair of nodes and every blend factor, the
interpolated node's position is `round(pos0*(1-t) + pos1*t)` component-wise
and its type and smooth flag are copied from the part-1 node. -/
theorem c5_interpolate_node_formula (node_0 node_1 : GSNode) (value : ℚ) :
    (interpolateNode node_0 node_1 value).x =
      (pyRound (node_0.x * (1 - value) + node_1.x * value) : ℤ) ∧
    (interpolateNode node_0 node_1 value).y =
      (pyRound (node_0.y * (1 - value) + node_1.y * value) : ℤ) ∧
    (interpolateNode node_0 node_1 value).nodeType = node_0.nodeType ∧
    (interpolateNode node_0 node_1 value).smooth = node_0.smooth :=
  ⟨rfl, rfl, rfl, rfl⟩

/-! ## C2: mismatched layers truncate silently -/

/-- Claim C2 (corrected): path interpolation never aborts on mismatched node
counts; it silently truncates to the shorter node list (`zip` semantics). -/
theorem c2_interpolation_truncates (path_0 path_1 : GSPath) (value : ℚ)
    (ps0 ps1 : List GSPath) (tr : Transform) :
    (interpolatePath path_0 path_1 value).nodes.length =
      min path_0.nodes.length path_1.nodes.length ∧
    ((ps0.zip ps1).map fun pp =>
      (interpolatePath pp.1 pp.2 value).applyTransform tr).length =
      min ps0.length ps1.length := by
  constructor
  · simp [interpolatePath]
  · simp

/-- Claim C2 (counterexample): resolving a smart component whose two extreme
layers have node counts 2 and 1 succeeds (no fatal error) and returns a
single path with 1 node — the data is silently truncated, the run is not
aborted. -/
theorem c2_counterexample :
    (smartComponentToPaths exFontC2 "m1" exStemComp).map
        (fun ps => ps.map fun p => p.nodes.length) = some [1] ∧
    exStemPath1.nodes.length = 2 ∧ exStemPath2.nodes.length = 1 :=
  ⟨rfl, rfl, rfl⟩

/-! ## C6: interpolation is affine at the endpoints -/

theorem interpolateNode_zero (node_0 node_1 : GSNode) :
    interpolateNode node_0 node_1 0 = roundNode node_0 := by
  simp only [interpolateNode, roundNode]
  have hx : node_0.x * (1 - 0) + node_1.x * 0 = node_0.x := by ring
  have hy : node_0.y * (1 - 0) + node_1.y * 0 = node_0.y := by ring
  rw [hx, hy]

theorem interpolatePath_zero_nodes (l0 l1 : List GSNode)
    (hlen : l0.length = l1.length) :
    ((l0.zip l1).map fun n => interpolateNode n.1 n.2 0) = l0.map roundNode := by
  have h1 : ((l0.zip l1).map fun n => interpolateNode n.1 n.2 0)
      = (l0.zip l1).map (fun n => roundNode n.1) := by
    simp only [interpolateNode_zero]
  have h2 : (l0.zip l1).map (fun n => roundNode n.1)
      = ((l0.zip l1).map Prod.fst).map roundNode := by
    rw [List.map_map]; rfl
  rw [h1, h2, List.map_fst_zip _ _ (le_of_eq hlen)]

/-- Claim C6 (confirmed): node interpolation is affine at the endpoints — at
`t = 0` it reproduces the part-1 node positions post-rounding (and, when the
node counts correspond, the whole part-1 path), at `t = 1` it reproduces the
part-2 positions post-rounding; and a smart component reference supplying no
axis value selects `t = 0`. -/
theorem c6_affine_endpoints (node_0 node_1 : GSNode) (path_0 path_1 : GSPath)
    (ref_glyph : GSGlyph) (font : List GSGlyph) (masterId : String)
    (comp : GSComponent) (layer_0 layer_1 : GSLayer)
    (hlen : path_0.nodes.length = path_1.nodes.length)
    (hvals : comp.smartComponentValues = [])
    (hlook : lookupGlyph font comp.componentName = some ref_glyph)
    (hl0 : findPartLayer masterId none 1 ref_glyph.layers = some layer_0)
    (hl1 : findPartLayer masterId none 2 ref_glyph.layers = some layer_1) :
    interpolateNode node_0 node_1 0 = roundNode node_0 ∧
    (interpolateNode node_0 node_1 1).x = (pyRound node_1.x : ℤ) ∧
    (interpolateNode node_0 node_1 1).y = (pyRound node_1.y : ℤ) ∧
    interpolatePath path_0 path_1 0 =
      { path_0 with nodes := path_0.nodes.map roundNode } ∧
    smartInterpolationSetup ref_glyph [] = some (0, none) ∧
    smartComponentToPaths font masterId comp =
      some (((layer_0.layerPaths).zip (layer_1.layerPaths)).map fun pp =>
        (interpolatePath pp.1 pp.2 0).applyTransform comp.transform) := by
  refine ⟨interpolateNode_zero node_0 node_1, ?_, ?_, ?_, rfl, ?_⟩
  · simp only [interpolateNode]
    have h : node_0.x * (1 - 1) + node_1.x * 1 = node_1.x := by ring
    rw [h]
  · simp only [interpolateNode]
    have h : node_0.y * (1 - 1) + node_1.y * 1 = node_1.y := by ring
    rw [h]
  · simp only [interpolatePath, interpolatePath_zero_nodes path_0.nodes path_1.nodes hlen]
  · unfold smartComponentToPaths
    rw [hlook, hvals]
    simp only [smartInterpolationSetup]
    rw [hl0, hl1]

/-! ## C3: the per-style interpolated value -/

theorem generate_pair (i1 i2 : Nat) (w1 w2 : ℚ) (values : List ℚ) :
    generate [(i1, w1), (i2, w2)] values =
      pyRound (values.getD i1 0 * w1 + values.getD i2 0 * w2) := by
  simp [generate]

theorem generate_single (i : Nat) (w : ℚ) (values : List ℚ) :
    generate [(i, w)] values = pyRound (values.getD i 0 * w) := by
  simp [generate]

/-- Claim C3 (confirmed): a style's interpolated value is
`round(Σ weight_j * masterValue[index_j])` over its interpolation vector; in
particular vector `[(0, 0.5), (1, 0.5)]` on master values `[100, 200]` yields
`150`. -/
theorem c3_style_interpolated_value (interpolation : List (Nat × ℚ))
    (values : List ℚ) :
    generate interpolation values =
      pyRound ((interpolation.map fun iv => iv.2 * values.getD iv.1 0).sum) ∧
    generate [(0, 1/2), (1, 1/2)] [100, 200] = 150 := by
  constructor
  · unfold generate
    refine congrArg pyRound (congrArg List.sum ?_)
    exact List.map_congr_left fun iv _ => mul_comm _ _
  · rw [generate_pair]
    rw [show ([100, 200] : List ℚ).getD 0 0 * (1/2) +
        ([100, 200] : List ℚ).getD 1 0 * (1/2) = ((150 : ℤ) : ℚ) by norm_num]
    exact pyRound_intCast 150

/-! ## C4: variant advances -/

/-- Claim C4 (amended, proved): the per-master raw advance is
`abs(round(bbox dimension))`, and the `+ 1` pad of variant advances is applied
per master *before* interpolation: the encoded advance is
`round(Σ weight_j * (raw_j + 1))`. -/
theorem c4_variant_advances (interpolation : List (Nat × ℚ)) (dims : List ℚ) :
    advances dims false = dims.map (fun d => |pyRound d|) ∧
    advances dims true = dims.map (fun d => |pyRound d| + 1) ∧
    variantAdvance interpolation dims =
      generate interpolation (dims.map fun d => ((|pyRound d| + 1 : ℤ) : ℚ)) := by
  refine ⟨rfl, ?_, ?_⟩
  · simp [advances, List.map_map]
  · unfold variantAdvance
    refine congrArg (generate interpolation) ?_
    unfold masterVariantAdvances advances
    simp only [if_pos, List.map_map]
    rfl

/-- Claim C4 (counterexample): the encoded advance is *not*
`round(interpolated_raw_advance) + 1` in general.  With interpolation vector
`[(0, 0.5), (1, 0.5)]` and per-master bounding-box dimensions `[2, 3]` the
code encodes `round(3*0.5 + 4*0.5) = round(3.5) = 4` (banker's rounding),
while the claimed formula gives `round(2.5) + 1 = 2 + 1 = 3`; with vector
`[(0, 2)]` and dimension `[5]` the code encodes `round(12) = 12` while the
claimed formula gives `round(10) + 1 = 11` under any rounding convention. -/
theorem c4_counterexample :
    variantAdvance [(0, 1/2), (1, 1/2)] [2, 3] = 4 ∧
    generate [(0, 1/2), (1, 1/2)]
      ((advances [2, 3] false).map fun i : ℤ => (i : ℚ)) + 1 = 3 ∧
    variantAdvance [(0, 2)] [5] = 12 ∧
    generate [(0, 2)] ((advances [5] false).map fun i : ℤ => (i : ℚ)) + 1 = 11 ∧
    ((4 : ℤ) ≠ 3) ∧ ((12 : ℤ) ≠ 11) := by
  have h2 : pyRound (2 : ℚ) = 2 := by simpa using pyRound_intCast 2
  have h3 : pyRound (3 : ℚ) = 3 := by simpa using pyRound_intCast 3
  have h5 : pyRound (5 : ℚ) = 5 := by simpa using pyRound_intCast 5
  have hadvT : masterVariantAdvances [2, 3] = [((3 : ℤ) : ℚ), ((4 : ℤ) : ℚ)] := by
    norm_num [masterVariantAdvances, advances, h2, h3]
  have hadvF : (advances [2, 3] false).map (fun i : ℤ => (i : ℚ)) =
      [((2 : ℤ) : ℚ), ((3 : ℤ) : ℚ)] := by
    norm_num [advances, h2, h3]
  have hadvT5 : masterVariantAdvances [5] = [((6 : ℤ) : ℚ)] := by
    norm_num [masterVariantAdvances, advances, h5]
  have hadvF5 : (advances [5] false).map (fun i : ℤ => (i : ℚ)) = [((5 : ℤ) : ℚ)] := by
    norm_num [advances, h5]
  have htie4 : pyRound (((3 : ℤ) : ℚ) + 1/2) = 4 := by
    rw [pyRound_tie_odd _ 3 rfl (by decide)]; decide
  have htie2 : pyRound (((2 : ℤ) : ℚ) + 1/2) = 2 := pyRound_tie_even _ 2 rfl (by decide)
  refine ⟨?_, ?_, ?_, ?_, by decide, by decide⟩
  · unfold variantAdvance
    rw [hadvT, generate_pair]
    rw [show ([((3 : ℤ) : ℚ), ((4 : ℤ) : ℚ)]).getD 0 0 * (1/2) +
        ([((3 : ℤ) : ℚ), ((4 : ℤ) : ℚ)]).getD 1 0 * (1/2) = ((3 : ℤ) : ℚ) + 1/2 by
      norm_num]
    exact htie4
  · rw [hadvF, generate_pair]
    rw [show ([((2 : ℤ) : ℚ), ((3 : ℤ) : ℚ)]).getD 0 0 * (1/2) +
        ([((2 : ℤ) : ℚ), ((3 : ℤ) : ℚ)]).getD 1 0 * (1/2) = ((2 : ℤ) : ℚ) + 1/2 by
      norm_num]
    rw [htie2]; decide
  · unfold variantAdvance
    rw [hadvT5, generate_single]
    rw [show ([((6 : ℤ) : ℚ)]).getD 0 0 * 2 = ((12 : ℤ) : ℚ) by norm_num]
    rw [pyRound_intCast]
  · rw [hadvF5, generate_single]
    rw [show ([((5 : ℤ) : ℚ)]).getD 0 0 * 2 = ((10 : ℤ) : ℚ) by norm_num]
    rw [pyRound_intCast]
    decide

/-! ## C7: incomplete per-master metric data is broadcast-filled -/

/-- Claim C7 (confirmed): a glyph recording fewer per-master values than the
master count gets a warning (the `true` flag), not a fatal error, and its
list is replaced by the first value broadcast to master-count length; with 1
recorded value and 3 masters the result is `[v, v, v]`. -/
theorem c7_broadcast_fill (mastersNum : Nat) (v : ℚ) (rest : List ℚ)
    (hshort : (v :: rest).length < mastersNum) :
    fillGlyphInfoValues mastersNum (v :: rest) =
      some (List.replicate mastersNum v, true) ∧
    (List.replicate mastersNum v).length = mastersNum ∧
    fillGlyphInfoValues 3 [v] = some ([v, v, v], true) ∧
    (∀ (w : ℚ) (ws : List ℚ) (out : List ℚ × Bool),
      fillGlyphInfoValues mastersNum (w :: ws) = some out →
      out.1.length = mastersNum) := by
  refine ⟨?_, List.length_replicate _ _, rfl, ?_⟩
  · unfold fillGlyphInfoValues
    rw [if_pos (Nat.ne_of_lt hshort)]
  · intro w ws out hout
    unfold fillGlyphInfoValues at hout
    by_cases hlen : (w :: ws).length = mastersNum
    · rw [if_neg (by simpa using hlen)] at hout
      cases hout
      exact hlen
    · rw [if_pos hlen] at hout
      cases hout
      exact List.length_replicate _ _

/-- Witness for `c7_broadcast_fill`: one recorded value, three masters. -/
theorem c7_broadcast_fill_witness :
    ((5 : ℚ) :: []).length < 3 ∧ (
    fillGlyphInfoValues 3 ((5 : ℚ) :: []) = some (List.replicate 3 (5 : ℚ), true) ∧
    (List.replicate 3 (5 : ℚ)).length = 3 ∧
    fillGlyphInfoValues 3 [(5 : ℚ)] = some ([5, 5, 5], true) ∧
    (∀ (w : ℚ) (ws : List ℚ) (out : List ℚ × Bool),
      fillGlyphInfoValues 3 (w :: ws) = some out → out.1.length = 3)) :=
  ⟨by decide, c7_broadcast_fill 3 5 [] (by decide)⟩

/-! ## C8: the part-flags bit patterns -/

/-- Claim C8 (confirmed): every encoded part record carries the literal flag
pattern `0x0001` when the part is an extender and the non-zero sentinel
`0xFFFE` when it is fixed. -/
theorem c8_part_flags (component : StyleComponent) :
    (glyphAssembly component).partRecords.map (fun r => r.partFlags) =
      component.parts.map (fun part => partFlagsOf part.isExtender) ∧
    partFlagsOf true = 0x0001 ∧ partFlagsOf false = 0xFFFE ∧
    partFlagsOf false ≠ 0 ∧
    (glyphAssembly component).partCount = component.parts.length := by
  refine ⟨?_, rfl, rfl, by decide, rfl⟩
  simp [glyphAssembly, List.map_map]

/-! ## C9: the `Remove Glyphs` asymmetry -/

theorem not_mem_styleGlyphInfoMap (interpolation : List (Nat × ℚ))
    (removeGlyphs : Option (List String)) (master : List (String × List ℚ))
    (glyph : String) (hrem : isRemovedGlyph removeGlyphs glyph = true) :
    glyph ∉ (styleGlyphInfoMap interpolation removeGlyphs master).map Prod.fst := by
  intro hmem
  simp only [styleGlyphInfoMap, List.map_map, List.mem_map] at hmem
  obtain ⟨gv, hgv, hfst⟩ := hmem
  have := List.of_mem_filter hgv
  rw [show (Prod.fst ∘ fun gv => (gv.1, generate interpolation gv.2)) gv = gv.1
    from rfl] at hfst
  rw [hfst, hrem] at this
  simp at this

/-- Claim C9 (confirmed): glyphs named by the style's `Remove Glyphs`
configuration are excluded from the style's ItalicCorrection and TopAccent
maps, but not from the ExtendedShapes set nor from the variants or assembly
data; a style with no `Remove Glyphs` configuration excludes nothing. -/
theorem c9_remove_glyphs_asymmetry (interpolation : List (Nat × ℚ))
    (removeGlyphs : Option (List String)) (master : MasterMathData)
    (glyph : String) (hrem : isRemovedGlyph removeGlyphs glyph = true) :
    glyph ∉ (parseMathTableStyle interpolation removeGlyphs master).italicCorrection.map Prod.fst ∧
    glyph ∉ (parseMathTableStyle interpolation removeGlyphs master).topAccent.map Prod.fst ∧
    (parseMathTableStyle interpolation removeGlyphs master).extendedShapes =
      master.extendedShapes ∧
    (parseMathTableStyle interpolation removeGlyphs master).horizontalVariants.map Prod.fst =
      master.horizontalVariants.map Prod.fst ∧
    (parseMathTableStyle interpolation removeGlyphs master).verticalVariants.map Prod.fst =
      master.verticalVariants.map Prod.fst ∧
    (parseMathTableStyle interpolation removeGlyphs master).horizontalComponents.map Prod.fst =
      master.horizontalComponents.map Prod.fst ∧
    (parseMathTableStyle interpolation removeGlyphs master).verticalComponents.map Prod.fst =
      master.verticalComponents.map Prod.fst ∧
    (∀ m : List (String × List ℚ), styleGlyphInfoMap interpolation none m =
      m.map fun gv => (gv.1, generate interpolation gv.2)) := by
  refine ⟨not_mem_styleGlyphInfoMap _ _ _ _ hrem,
    not_mem_styleGlyphInfoMap _ _ _ _ hrem, rfl, ?_, ?_, ?_, ?_, ?_⟩
  · simp [parseMathTableStyle, styleVariantMap, List.map_map]
  · simp [parseMathTableStyle, styleVariantMap, List.map_map]
  · simp [parseMathTableStyle, styleComponentMap, List.map_map]
  · simp [parseMathTableStyle, styleComponentMap, List.map_map]
  · intro m
    simp [styleGlyphInfoMap, isRemovedGlyph]

/-- Witness for `c9_remove_glyphs_asymmetry`: style removing glyph `x`. -/
theorem c9_remove_glyphs_asymmetry_witness :
    isRemovedGlyph (some ["x"]) "x" = true ∧ (
    "x" ∉ (parseMathTableStyle [(0, 1)] (some ["x"]) exMasterData).italicCorrection.map Prod.fst ∧
    "x" ∉ (parseMathTableStyle [(0, 1)] (some ["x"]) exMasterData).topAccent.map Prod.fst ∧
    (parseMathTableStyle [(0, 1)] (some ["x"]) exMasterData).extendedShapes =
      exMasterData.extendedShapes ∧
    (parseMathTableStyle [(0, 1)] (some ["x"]) exMasterData).horizontalVariants.map Prod.fst =
      exMasterData.horizontalVariants.map Prod.fst ∧
    (parseMathTableStyle [(0, 1)] (some ["x"]) exMasterData).verticalVariants.map Prod.fst =
      exMasterData.verticalVariants.map Prod.fst ∧
    (parseMathTableStyle [(0, 1)] (some ["x"]) exMasterData).horizontalComponents.map Prod.fst =
      exMasterData.horizontalComponents.map Prod.fst ∧
    (parseMathTableStyle [(0, 1)] (some ["x"]) exMasterData).verticalComponents.map Prod.fst =
      exMasterData.verticalComponents.map Prod.fst ∧
    (∀ m : List (String × List ℚ), styleGlyphInfoMap [(0, 1)] none m =
      m.map fun gv => (gv.1, generate [(0, 1)] gv.2))) :=
  ⟨rfl, c9_remove_glyphs_asymmetry [(0, 1)] (some ["x"]) exMasterData "x" rfl⟩

/-! ## C10: assembly italic correction is not interpolated -/

/-- Claim C10 (confirmed): the italic-correction of every glyph assembly is
copied verbatim from the master data — identical across all styles — while
the parts' start-connector, end-connector and full-advance values are
interpolated with the style's vector. -/
theorem c10_assembly_italic_correction (interpolation interpolation' : List (Nat × ℚ))
    (removeGlyphs : Option (List String)) (master : MasterMathData)
    (c : MasterComponent) :
    (styleComponent interpolation c).italicsCorrection = c.italicsCorrection ∧
    (styleComponent interpolation c).italicsCorrection =
      (styleComponent interpolation' c).italicsCorrection ∧
    (styleComponent interpolation c).parts = c.parts.map (fun part =>
      ⟨part.name, part.isExtender, generate interpolation part.startConnector,
        generate interpolation part.endConnector,
        generate interpolation part.fullAdvance⟩) ∧
    (glyphAssembly (styleComponent interpolation c)).italicsCorrection =
      mathValue c.italicsCorrection ∧
    ((parseMathTableStyle interpolation removeGlyphs master).horizontalComponents.map
        fun gc => gc.2.italicsCorrection) =
      master.horizontalComponents.map (fun gc => gc.2.italicsCorrection) ∧
    ((parseMathTableStyle interpolation removeGlyphs master).verticalComponents.map
        fun gc => gc.2.italicsCorrection) =
      master.verticalComponents.map (fun gc => gc.2.italicsCorrection) := by
  refine ⟨rfl, rfl, rfl, rfl, ?_, ?_⟩
  · simp [parseMathTableStyle, styleComponentMap, styleComponent, List.map_map]
  · simp [parseMathTableStyle, styleComponentMap, styleComponent, List.map_map]

/-- Witness for `c6_affine_endpoints` at concrete inputs (two 2-node paths of
equal length). -/
theorem c6_affine_endpoints_witness :
    (exStemPath1.nodes.length = exPathD.nodes.length ∧
     exStemComp.smartComponentValues = [] ∧
     lookupGlyph exFontC2 exStemComp.componentName = some exStemGlyph ∧
     findPartLayer "m1" none 1 exStemGlyph.layers = some exStemLayer1 ∧
     findPartLayer "m1" none 2 exStemGlyph.layers = some exStemLayer2) ∧ (
    interpolateNode ⟨1, 2, "line", false⟩ ⟨10, 20, "curve", true⟩ 0 =
      roundNode ⟨1, 2, "line", false⟩ ∧
    (interpolateNode ⟨1, 2, "line", false⟩ ⟨10, 20, "curve", true⟩ 1).x =
      (pyRound (10 : ℚ) : ℤ) ∧
    (interpolateNode ⟨1, 2, "line", false⟩ ⟨10, 20, "curve", true⟩ 1).y =
      (pyRound (20 : ℚ) : ℤ) ∧
    interpolatePath exStemPath1 exPathD 0 =
      { exStemPath1 with nodes := exStemPath1.nodes.map roundNode } ∧
    smartInterpolationSetup exStemGlyph [] = some (0, none) ∧
    smartComponentToPaths exFontC2 "m1" exStemComp =
      some (((exStemLayer1.layerPaths).zip (exStemLayer2.layerPaths)).map fun pp =>
        (interpolatePath pp.1 pp.2 0).applyTransform exStemComp.transform)) :=
  ⟨⟨rfl, rfl, rfl, rfl, rfl⟩,
    c6_affine_endpoints ⟨1, 2, "line", false⟩ ⟨10, 20, "curve", true⟩
      exStemPath1 exPathD exStemGlyph exFontC2 "m1" exStemComp
      exStemLayer1 exStemLayer2 rfl rfl rfl rfl rfl⟩

/-! ## C1 helper lemmas: list and `mapOption` facts -/

theorem list_set_of_getElem? {α : Type} (l : List α) (i : Nat) (a : α)
    (h : l[i]? = some a) : l.set i a = l := by
  induction l generalizing i with
  | nil => simp at h
  | cons x xs ih =>
    cases i with
    | zero => simp_all
    | succ n =>
      simp only [List.getElem?_cons_succ] at h
      simp [List.set, ih n h]

theorem getElem?_set_self_of_lt {α : Type} (l : List α) (i : Nat) (a : α)
    (h : i < l.length) : (l.set i a)[i]? = some a := by
  rw [List.getElem?_set_self']
  rw [List.getElem?_eq_getElem h]
  rfl

theorem mapOption_id {α : Type} (f : α → Option α) (l : List α)
    (h : ∀ a ∈ l, f a = some a) : mapOption f l = some l := by
  induction l with
  | nil => rfl
  | cons a as ih =>
    simp only [mapOption]
    rw [h a (by simp), ih fun b hb => h b (by simp [hb])]

theorem mapOption_mem {α β : Type} (f : α → Option β) (l : List α) (l' : List β)
    (h : mapOption f l = some l') : ∀ b ∈ l', ∃ a ∈ l, f a = some b := by
  induction l generalizing l' with
  | nil =>
    simp only [mapOption] at h
    cases h; simp
  | cons a as ih =>
    simp only [mapOption] at h
    cases hfa : f a with
    | none => rw [hfa] at h; cases h
    | some b =>
      rw [hfa] at h
      cases hrest : mapOption f as with
      | none => rw [hrest] at h; cases h
      | some bs =>
        rw [hrest] at h
        cases h
        intro c hc
        rcases List.mem_cons.mp hc with hc | hc
        · subst hc
          exact ⟨a, by simp, hfa⟩
        · obtain ⟨a', ha', hfa'⟩ := ih bs hrest c hc
          exact ⟨a', by simp [ha'], hfa'⟩

/-! ## C1 helper lemmas: single-layer processing -/

theorem decomposeLayerPass1_components (font : List GSGlyph) (l l' : GSLayer)
    (h : decomposeLayerPass1 font l = some l') : l'.components = [] := by
  unfold decomposeLayerPass1 at h
  cases hm : mapOption (expandComp1 font l.associatedMasterId) l.components with
  | none => rw [hm] at h; cases h
  | some pss =>
    rw [hm] at h
    cases h
    simp only [GSLayer.components, List.filterMap_append, List.filterMap_map]
    rw [List.filterMap_eq_nil_iff.mpr, List.filterMap_eq_nil_iff.mpr, List.append_nil]
    · intro p _; rfl
    · intro s hs
      have := List.of_mem_filter hs
      cases s with
      | path p => rfl
      | comp c => simp [isPathShape] at this

theorem decomposeLayerPass2_values (font : List GSGlyph) (l l' : GSLayer)
    (h : decomposeLayerPass2 font l = some l') :
    ∀ c ∈ l'.components, c.smartComponentValues = [] := by
  unfold decomposeLayerPass2 at h
  cases hm : mapOption (smartComponentToPaths font l.associatedMasterId)
      (l.components.filter fun c => !c.smartComponentValues.isEmpty) with
  | none => rw [hm] at h; cases h
  | some pss =>
    rw [hm] at h
    cases h
    intro c hc
    simp only [GSLayer.components, List.filterMap_append, List.filterMap_map,
      List.mem_append] at hc
    rcases hc with hc | hc
    · rw [List.mem_filterMap] at hc
      obtain ⟨s, hs, hsc⟩ := hc
      have hkeep := List.of_mem_filter hs
      cases s with
      | path p => cases hsc
      | comp c' =>
        injection hsc with hsc
        subst hsc
        simpa using hkeep
    · rw [List.mem_filterMap] at hc
      obtain ⟨p, _, hpc⟩ := hc
      cases hpc

theorem shapes_filter_of_no_components (l : GSLayer) (h : l.components = []) :
    l.shapes.filter isPathShape = l.shapes := by
  apply List.filter_eq_self.mpr
  intro s hs
  have hnone := List.filterMap_eq_nil_iff.mp h s hs
  cases s with
  | path p => rfl
  | comp c => simp at hnone

theorem decomposeLayerPass1_id (font : List GSGlyph) (l : GSLayer)
    (h : l.components = []) : decomposeLayerPass1 font l = some l := by
  unfold decomposeLayerPass1
  rw [h]
  show some { l with shapes := l.shapes.filter isPathShape ++ _ } = some l
  rw [shapes_filter_of_no_components l h]
  show some { l with shapes := l.shapes ++ [] } = some l
  rw [List.append_nil]

theorem decomposeLayerPass2_id (font : List GSGlyph) (l : GSLayer)
    (h : ∀ c ∈ l.components, c.smartComponentValues = []) :
    decomposeLayerPass2 font l = some l := by
  unfold decomposeLayerPass2
  have hfilter : (l.components.filter fun c => !c.smartComponentValues.isEmpty) = [] := by
    apply List.filter_eq_nil_iff.mpr
    intro c hc
    simp [h c hc]
  rw [hfilter]
  show some { l with shapes := l.shapes.filter _ ++ _ } = some l
  have hkeep : (l.shapes.filter fun s => match s with
      | .path _ => true
      | .comp c => c.smartComponentValues.isEmpty) = l.shapes := by
    apply List.filter_eq_self.mpr
    intro s hs
    cases hsc : s with
    | path p => rfl
    | comp c =>
      have hc : c ∈ l.components := by
        simp only [GSLayer.components, List.mem_filterMap]
        exact ⟨s, hs, by rw [hsc]⟩
      simp [h c hc]
  rw [hkeep]
  show some { l with shapes := l.shapes ++ [] } = some l
  rw [List.append_nil]

/-! ## C1 helper lemmas: glyph processing and pass folding -/

theorem processGlyph_id (passFn : List GSGlyph → GSLayer → Option GSLayer)
    (font : List GSGlyph) (g : GSGlyph)
    (h : ∀ l ∈ g.layers, passFn font l = some l) :
    processGlyph passFn font g = some g := by
  unfold processGlyph
  rw [mapOption_id _ _ h]

theorem processGlyph_axes (passFn : List GSGlyph → GSLayer → Option GSLayer)
    (font : List GSGlyph) (g g' : GSGlyph)
    (h : processGlyph passFn font g = some g') :
    g'.smartComponentAxes = g.smartComponentAxes := by
  unfold processGlyph at h
  cases hm : mapOption (passFn font) g.layers with
  | none => rw [hm] at h; cases h
  | some ls => rw [hm] at h; cases h; rfl

theorem processGlyph_layers_mem (passFn : List GSGlyph → GSLayer → Option GSLayer)
    (font : List GSGlyph) (g g' : GSGlyph)
    (h : processGlyph passFn font g = some g') :
    ∀ l' ∈ g'.layers, ∃ l ∈ g.layers, passFn font l = some l' := by
  unfold processGlyph at h
  cases hm : mapOption (passFn font) g.layers with
  | none => rw [hm] at h; cases h
  | some ls => rw [hm] at h; cases h; exact mapOption_mem _ _ _ hm

theorem runPassFrom_length (passFn : List GSGlyph → GSLayer → Option GSLayer)
    (p : GSGlyph → Bool) (idxs : List Nat) (font font' : List GSGlyph)
    (h : runPassFrom passFn p idxs font = some font') :
    font'.length = font.length := by
  induction idxs generalizing font with
  | nil =>
    simp only [runPassFrom] at h
    cases h; rfl
  | cons gj rest ih =>
    simp only [runPassFrom] at h
    split at h
    · cases h
    · rename_i g hg
      split at h
      · split at h
        · cases h
        · rename_i hp g' hpr
          have := ih (font.set gj g') h
          rw [this, List.length_set]
      · exact ih font h

/-- Folding a pass preserves any per-glyph property `Q` that processing
(re-)establishes. -/
theorem runPassFrom_preserve (passFn : List GSGlyph → GSLayer → Option GSLayer)
    (p : GSGlyph → Bool) (Q : GSGlyph → Prop)
    (hQproc : ∀ font g g', p g = true → processGlyph passFn font g = some g' → Q g')
    (idxs : List Nat) (font font' : List GSGlyph)
    (h : runPassFrom passFn p idxs font = some font') (gi : Nat)
    (hold : ∀ g, font[gi]? = some g → Q g) :
    ∀ g, font'[gi]? = some g → Q g := by
  induction idxs generalizing font with
  | nil =>
    simp only [runPassFrom] at h
    cases h; exact hold
  | cons gj rest ih =>
    simp only [runPassFrom] at h
    split at h
    · cases h
    · rename_i g hg
      split at h
      · rename_i hp
        split at h
        · cases h
        · rename_i g' hpr
          refine ih (font.set gj g') h ?_
          intro g0 hg0
          by_cases hij : gj = gi
          · subst hij
            rw [getElem?_set_self_of_lt font gj g'
              (List.getElem?_eq_some_iff.mp hg).1] at hg0
            cases hg0
            exact hQproc font g g' hp hpr
          · rw [List.getElem?_set_ne hij] at hg0
            exact hold g0 hg0
      · exact ih font h hold

/-- Folding a pass establishes `Q` at every visited glyph index, provided
processing establishes `Q` and glyphs failing the pass predicate satisfy `Q`
trivially. -/
theorem runPassFrom_establish (passFn : List GSGlyph → GSLayer → Option GSLayer)
    (p : GSGlyph → Bool) (Q : GSGlyph → Prop)
    (hQproc : ∀ font g g', p g = true → processGlyph passFn font g = some g' → Q g')
    (hQskip : ∀ g, p g = false → Q g)
    (idxs : List Nat) (font font' : List GSGlyph)
    (h : runPassFrom passFn p idxs font = some font') :
    ∀ gi ∈ idxs, ∀ g, font'[gi]? = some g → Q g := by
  induction idxs generalizing font with
  | nil => simp
  | cons gj rest ih =>
    intro gi hgi
    have hstep := h
    simp only [runPassFrom] at hstep
    split at hstep
    · cases hstep
    · rename_i g hg
      split at hstep
      · rename_i hp
        split at hstep
        · cases hstep
        · rename_i g' hpr
          rcases List.mem_cons.mp hgi with hgi | hgi
          · subst hgi
            refine runPassFrom_preserve passFn p Q hQproc rest _ _ hstep gi ?_
            intro g0 hg0
            rw [getElem?_set_self_of_lt font gi g'
              (List.getElem?_eq_some_iff.mp hg).1] at hg0
            cases hg0
            exact hQproc font g g' hp hpr
          · exact ih _ hstep gi hgi
      · rename_i hp
        rcases List.mem_cons.mp hgi with hgi | hgi
        · subst hgi
          refine runPassFrom_preserve passFn p Q hQproc rest _ _ hstep gi ?_
          intro g0 hg0
          rw [hg] at hg0
          cases hg0
          exact hQskip g (by simpa using hp)
        · exact ih _ hstep gi hgi

/-- A pass is the identity when every visited glyph is either skipped or
processed to itself. -/
theorem runPassFrom_id (passFn : List GSGlyph → GSLayer → Option GSLayer)
    (p : GSGlyph → Bool) (idxs : List Nat) (font : List GSGlyph)
    (hlt : ∀ gi ∈ idxs, gi < font.length)
    (hid : ∀ gi ∈ idxs, ∀ g, font[gi]? = some g → p g = true →
      processGlyph passFn font g = some g) :
    runPassFrom passFn p idxs font = some font := by
  induction idxs with
  | nil => rfl
  | cons gj rest ih =>
    simp only [runPassFrom]
    have hj : gj < font.length := hlt gj (by simp)
    split
    · rename_i hg
      rw [List.getElem?_eq_getElem hj] at hg
      cases hg
    · rename_i g hg
      split
      · rename_i hp
        rw [hid gj (by simp) g hg hp]
        show runPassFrom passFn p rest (font.set gj g) = some font
        rw [list_set_of_getElem? font gj g hg]
        exact ih (fun gi hgi => hlt gi (by simp [hgi]))
          (fun gi hgi => hid gi (by simp [hgi]))
      · exact ih (fun gi hgi => hlt gi (by simp [hgi]))
          (fun gi hgi => hid gi (by simp [hgi]))

/-! ## C1: what one decomposer run guarantees -/

/-- Claim C1 (amended, proved): after one decomposer run, smart glyphs retain
no components at all and every component remaining anywhere carries an empty
smart-value dict (ordinary references in non-smart glyphs are *not*
expanded), and a second run changes nothing. -/
theorem c1_decomposition (font font' : List GSGlyph)
    (h : decomposeSmartComp font = some font') :
    (∀ g ∈ font', isSmartGlyph g = true → ∀ l ∈ g.layers, l.components = []) ∧
    (∀ g ∈ font', ∀ l ∈ g.layers, ∀ c ∈ l.components, c.smartComponentValues = []) ∧
    decomposeSmartComp font' = some font' := by
  unfold decomposeSmartComp at h
  split at h
  · cases h
  case _ f1 h1 =>
  unfold runPass at h1 h
  have hQ1proc : ∀ fo g g', isSmartGlyph g = true →
      processGlyph decomposeLayerPass1 fo g = some g' →
      (isSmartGlyph g' = true → ∀ l ∈ g'.layers, l.components = []) := by
    intro fo g g' _ hpr _ l' hl'
    obtain ⟨l, _, hfl⟩ := processGlyph_layers_mem _ _ _ _ hpr l' hl'
    exact decomposeLayerPass1_components fo l l' hfl
  have hQ1skip : ∀ g : GSGlyph, isSmartGlyph g = false →
      (isSmartGlyph g = true → ∀ l ∈ g.layers, l.components = []) := by
    intro g hfalse htrue
    rw [hfalse] at htrue
    cases htrue
  have hEst1 := runPassFrom_establish decomposeLayerPass1 isSmartGlyph
    (fun g => isSmartGlyph g = true → ∀ l ∈ g.layers, l.components = [])
    hQ1proc hQ1skip (List.range font.length) font f1 h1
  have hQ1proc2 : ∀ fo g g', (!isSmartGlyph g) = true →
      processGlyph decomposeLayerPass2 fo g = some g' →
      (isSmartGlyph g' = true → ∀ l ∈ g'.layers, l.components = []) := by
    intro fo g g' hp hpr hsm'
    have haxes := processGlyph_axes _ _ _ _ hpr
    have hsame : isSmartGlyph g' = isSmartGlyph g := by
      simp [isSmartGlyph, haxes]
    simp only [Bool.not_eq_true'] at hp
    rw [hsame, hp] at hsm'
    cases hsm'
  have hPres1 : ∀ gi : Nat,
      (∀ g, f1[gi]? = some g →
        (isSmartGlyph g = true → ∀ l ∈ g.layers, l.components = [])) →
      ∀ g, font'[gi]? = some g →
        (isSmartGlyph g = true → ∀ l ∈ g.layers, l.components = []) :=
    by
    intro gi hold
    exact runPassFrom_preserve decomposeLayerPass2
      (fun g => !isSmartGlyph g)
      (fun g => isSmartGlyph g = true → ∀ l ∈ g.layers, l.components = [])
      hQ1proc2 (List.range f1.length) f1 font' h gi hold
  have hlen1 : f1.length = font.length := runPassFrom_length _ _ _ _ _ h1
  have hlen2 : font'.length = f1.length := runPassFrom_length _ _ _ _ _ h
  have hInv1 : ∀ (gi : Nat) (g : GSGlyph), font'[gi]? = some g →
      (isSmartGlyph g = true → ∀ l ∈ g.layers, l.components = []) := by
    intro gi g hg
    have hlt : gi < font'.length := (List.getElem?_eq_some_iff.mp hg).1
    have hrange : gi ∈ List.range font.length := by
      rw [List.mem_range]; omega
    exact hPres1 gi (hEst1 gi hrange) g hg
  have hQ2proc : ∀ fo g g', (!isSmartGlyph g) = true →
      processGlyph decomposeLayerPass2 fo g = some g' →
      (isSmartGlyph g' = false →
        ∀ l ∈ g'.layers, ∀ c ∈ l.components, c.smartComponentValues = []) := by
    intro fo g g' _ hpr _ l' hl'
    obtain ⟨l, _, hfl⟩ := processGlyph_layers_mem _ _ _ _ hpr l' hl'
    exact decomposeLayerPass2_values fo l l' hfl
  have hQ2skip : ∀ g : GSGlyph, (!isSmartGlyph g) = false →
      (isSmartGlyph g = false →
        ∀ l ∈ g.layers, ∀ c ∈ l.components, c.smartComponentValues = []) := by
    intro g hp hfalse
    rw [hfalse] at hp
    simp at hp
  have hInv2 := runPassFrom_establish decomposeLayerPass2 (fun g => !isSmartGlyph g)
    (fun g => isSmartGlyph g = false →
      ∀ l ∈ g.layers, ∀ c ∈ l.components, c.smartComponentValues = [])
    hQ2proc hQ2skip (List.range f1.length) f1 font' h
  have hconj2 : ∀ g ∈ font', ∀ l ∈ g.layers, ∀ c ∈ l.components,
      c.smartComponentValues = [] := by
    intro g hmem l hl c hc
    obtain ⟨gi, hgi⟩ := List.mem_iff_getElem?.mp hmem
    cases hsm : isSmartGlyph g with
    | true =>
      have := hInv1 gi g hgi hsm l hl
      rw [this] at hc
      cases hc
    | false =>
      have hlt : gi < font'.length := (List.getElem?_eq_some_iff.mp hgi).1
      have hrange : gi ∈ List.range f1.length := by
        rw [List.mem_range]; omega
      exact hInv2 gi hrange g hgi hsm l hl c hc
  refine ⟨?_, hconj2, ?_⟩
  · intro g hmem hsm l hl
    obtain ⟨gi, hgi⟩ := List.mem_iff_getElem?.mp hmem
    exact hInv1 gi g hgi hsm l hl
  · have hpass1 : runPass decomposeLayerPass1 isSmartGlyph font' = some font' := by
      unfold runPass
      apply runPassFrom_id
      · intro gi hgi
        rw [List.mem_range] at hgi
        exact hgi
      · intro gi _ g hg hp
        apply processGlyph_id
        intro l hl
        exact decomposeLayerPass1_id font' l (hInv1 gi g hg hp l hl)
    have hpass2 : runPass decomposeLayerPass2 (fun g => !isSmartGlyph g) font' =
        some font' := by
      unfold runPass
      apply runPassFrom_id
      · intro gi hgi
        rw [List.mem_range] at hgi
        exact hgi
      · intro gi _ g hg _
        apply processGlyph_id
        intro l hl
        apply decomposeLayerPass2_id
        intro c hc
        exact hconj2 g (List.mem_iff_getElem?.mpr ⟨gi, hg⟩) l hl c hc
    unfold decomposeSmartComp
    rw [hpass1]
    exact hpass2

/-- Claim C1 (counterexample): running the decomposer on a font where the
non-smart glyph `B` holds an ordinary component reference to `A` leaves that
component reference in place — component references of the ordinary kind do
survive a full decomposer run inside non-smart glyphs. -/
theorem c1_counterexample :
    decomposeSmartComp exFontC1 = some exFontC1 ∧
    (exFontC1.any fun g => g.layers.any fun l => !l.components.isEmpty) = true :=
  ⟨rfl, rfl⟩

/-- Witness for `c1_decomposition` at the concrete two-glyph font. -/
theorem c1_decomposition_witness :
    decomposeSmartComp exFontC1 = some exFontC1 ∧ (
    (∀ g ∈ exFontC1, isSmartGlyph g = true → ∀ l ∈ g.layers, l.components = []) ∧
    (∀ g ∈ exFontC1, ∀ l ∈ g.layers, ∀ c ∈ l.components, c.smartComponentValues = []) ∧
    decomposeSmartComp exFontC1 = some exFontC1) :=
  ⟨rfl, c1_decomposition exFontC1 exFontC1 rfl⟩

end FiraMath
